import Mathlib

/-!
Shallow embedding of the deep-learning model-management subsystem of the
repository (src/src/effects/deeplearning): the ModelCard JSON metadata
format with its validators (ModelCard.cpp), the model-card registry
(ModelCardCollection), the DeepModelManager install/cancel/uninstall state
machine (DeepModelManager.cpp), and the effect-layer forward-pass wrapper
(EffectDeepLearning.cpp).  JSON documents are modelled as an inductive
value type; the filesystem is modelled as the list of existing file paths;
the manager's in-flight response map is modelled by its key set.
-/

/-- A rapidjson document value.  Numbers are modelled as unbounded integers
together with the range predicates `IsInt` / `IsUint64` that rapidjson
exposes (the source only reads integral numbers). -/
inductive JsonValue where
  | null : JsonValue
  | bool (b : Bool) : JsonValue
  | num (n : Int) : JsonValue
  | str (s : String) : JsonValue
  | arr (items : List JsonValue) : JsonValue
  | obj (fields : List (String × JsonValue)) : JsonValue

namespace JsonValue

/-- `doc->IsObject()`. -/
def isObject : JsonValue → Bool
  | .obj _ => true
  | _ => false

/-- First binding for `key`, like rapidjson member lookup `(*doc)[key]`. -/
def getMember : JsonValue → String → Option JsonValue
  | .obj fields, key => lookupField fields key
  | _, _ => none
where
  lookupField : List (String × JsonValue) → String → Option JsonValue
    | [], _ => none
    | (k, v) :: rest, key => if k = key then some v else lookupField rest key

/-- `doc->HasMember(key)`. -/
def hasMember (doc : JsonValue) (key : String) : Bool :=
  (doc.getMember key).isSome

/-- `v.IsString()`. -/
def isString : JsonValue → Bool
  | .str _ => true
  | _ => false

/-- `v.GetString()`; rapidjson asserts on a non-string value, modelled as
the empty string. -/
def getStr : JsonValue → String
  | .str s => s
  | _ => ""

/-- `v.IsInt()`: an integral number in the range of a 32-bit `int`
(`-2^31 ≤ n < 2^31`, written as literals). -/
def isInt : JsonValue → Bool
  | .num n => decide (-2147483648 ≤ n ∧ n < 2147483648)
  | _ => false

/-- `v.GetInt()`. -/
def getInt : JsonValue → Int
  | .num n => n
  | _ => 0

/-- `v.IsBool()`. -/
def isBool : JsonValue → Bool
  | .bool _ => true
  | _ => false

/-- `v.GetBool()`. -/
def getBool : JsonValue → Bool
  | .bool b => b
  | _ => false

/-- `v.IsArray()`. -/
def isArray : JsonValue → Bool
  | .arr _ => true
  | _ => false

/-- `v.IsUint64()`: an integral number in the range of `uint64_t`
(`0 ≤ n < 2^64`, written as literals). -/
def isUint64 : JsonValue → Bool
  | .num n => decide (0 ≤ n ∧ n < 18446744073709551616)
  | _ => false

/-- `v.GetUint64()`. -/
def getUint64 : JsonValue → Nat
  | .num n => n.toNat
  | _ => 0

end JsonValue

/-- The `InvalidModelCardDocument` exception (ModelCard.h); the diagnostic
message is abstracted into the kind of failure. -/
inductive InvalidModelCardDocument where
  | notAnObject : InvalidModelCardDocument
  | missingField (key : String) : InvalidModelCardDocument
  | typeError (key : String) (expected : String) : InvalidModelCardDocument
  | schemaViolation : InvalidModelCardDocument

namespace validators

/-- `validators::validateExists` (ModelCard.cpp): throws when the document
is not a JSON object or lacks the member. -/
def validateExists (key : String) (doc : JsonValue) :
    Except InvalidModelCardDocument Unit :=
  if ¬ doc.isObject then .error .notAnObject
  else if ¬ doc.hasMember key then .error (.missingField key)
  else .ok ()

/-- `validators::tryGetString` (throwing overload). -/
def tryGetString (key : String) (doc : JsonValue) :
    Except InvalidModelCardDocument String :=
  match validateExists key doc with
  | .error e => .error e
  | .ok _ =>
      let v := (doc.getMember key).getD .null
      if ¬ v.isString then .error (.typeError key "string") else .ok v.getStr

/-- `validators::tryGetString` with a default: catches the exception. -/
def tryGetStringD (key : String) (doc : JsonValue) (dflt : String) : String :=
  match tryGetString key doc with
  | .ok s => s
  | .error _ => dflt

/-- `validators::tryGetInt` (throwing overload). -/
def tryGetInt (key : String) (doc : JsonValue) :
    Except InvalidModelCardDocument Int :=
  match validateExists key doc with
  | .error e => .error e
  | .ok _ =>
      let v := (doc.getMember key).getD .null
      if ¬ v.isInt then .error (.typeError key "int") else .ok v.getInt

/-- `validators::tryGetBool` (throwing overload). -/
def tryGetBool (key : String) (doc : JsonValue) :
    Except InvalidModelCardDocument Bool :=
  match validateExists key doc with
  | .error e => .error e
  | .ok _ =>
      let v := (doc.getMember key).getD .null
      if ¬ v.isBool then .error (.typeError key "bool") else .ok v.getBool

/-- `validators::tryGetStringArray` (throwing overload).  The source checks
`IsArray` and then calls `GetString()` on every element without a type
check (rapidjson asserts on non-strings, modelled by `getStr`). -/
def tryGetStringArray (key : String) (doc : JsonValue) :
    Except InvalidModelCardDocument (List String) :=
  match validateExists key doc with
  | .error e => .error e
  | .ok _ =>
      match (doc.getMember key).getD .null with
      | .arr items => .ok (items.map JsonValue.getStr)
      | _ => .error (.typeError key "array")

/-- `validators::tryGetUint64` (throwing overload). -/
def tryGetUint64 (key : String) (doc : JsonValue) :
    Except InvalidModelCardDocument Nat :=
  match validateExists key doc with
  | .error e => .error e
  | .ok _ =>
      let v := (doc.getMember key).getD .null
      if ¬ v.isUint64 then .error (.typeError key "uint64") else .ok v.getUint64

/-- `validators::tryGetUint64` with a default: catches the exception. -/
def tryGetUint64D (key : String) (doc : JsonValue) (dflt : Nat) : Nat :=
  match tryGetUint64 key doc with
  | .ok n => n
  | .error _ => dflt

end validators

/-- Modelled from the spec: the JSON Schema validator is provided by the
external rapidjson library (not part of this repository's sources).  Per
the spec a schema validator is constructed from the schema document and
the candidate document is accepted against it, so a schema document is
modelled as a Boolean acceptance predicate on documents. -/
def Schema := JsonValue → Bool

/-- `ModelCard` (ModelCard.h): the typed metadata record.  `sample_rate`
is a C++ `int` and `model_size` a `size_t`; their machine ranges appear as
hypotheses where they matter. -/
structure ModelCard where
  name : String := ""
  author : String := ""
  long_description : String := ""
  short_description : String := ""
  sample_rate : Int := 0
  multichannel : Bool := false
  effect_type : String := ""
  domain_tags : List String := []
  tags : List String := []
  labels : List String := []
  model_size : Nat := 0
  is_local : Bool := false
  local_path : String := ""

namespace ModelCard

/-- `ModelCard::GetRepoID`: `{author}/{name}`. -/
def GetRepoID (c : ModelCard) : String :=
  c.author ++ "/" ++ c.name

/-- `ModelCard::operator==`: equality is repo-id equality only. -/
def cardEq (a b : ModelCard) : Bool :=
  decide (a.GetRepoID = b.GetRepoID)

/-- `ModelCard::Validate` (ModelCard.cpp): accept the document against the
schema validator, throwing `InvalidModelCardDocument` on rejection. -/
def Validate (doc : JsonValue) (schema : Schema) :
    Except InvalidModelCardDocument Unit :=
  if schema doc then .ok () else .error .schemaViolation

/-- `ModelCard::Serialize` (ModelCard.cpp): writes the documented fields
in the source's fixed key order. -/
def Serialize (c : ModelCard) : JsonValue :=
  .obj [("name", .str c.name),
        ("author", .str c.author),
        ("long_description", .str c.long_description),
        ("short_description", .str c.short_description),
        ("sample_rate", .num c.sample_rate),
        ("multichannel", .bool c.multichannel),
        ("effect_type", .str c.effect_type),
        ("domain_tags", .arr (c.domain_tags.map JsonValue.str)),
        ("tags", .arr (c.tags.map JsonValue.str)),
        ("labels", .arr (c.labels.map JsonValue.str)),
        ("model_size", .num (Int.ofNat c.model_size))]

/-- `ModelCard::Deserialize` (ModelCard.cpp).  The source wraps the
`Validate` call in a try/catch whose handler only logs (`wxLogError`), so
a schema violation does not abort deserialization; field reads follow in
source order, the optional fields with their caught defaults and the
required fields rethrowing. -/
def Deserialize (c : ModelCard) (doc : JsonValue) (schema : Schema) :
    Except InvalidModelCardDocument ModelCard :=
  let _ := Validate doc schema
  let author := validators.tryGetStringD "author" doc ""
  let name := validators.tryGetStringD "name" doc ""
  let model_size := validators.tryGetUint64D "model_size" doc 0
  let long_description :=
    validators.tryGetStringD "long_description" doc "no long description available"
  let short_description :=
    validators.tryGetStringD "short_description" doc "no short description available"
  match validators.tryGetString "effect_type" doc with
  | .error e => .error e
  | .ok effect_type =>
  match validators.tryGetStringArray "domain_tags" doc with
  | .error e => .error e
  | .ok domain_tags =>
  match validators.tryGetStringArray "tags" doc with
  | .error e => .error e
  | .ok tags =>
  match validators.tryGetStringArray "labels" doc with
  | .error e => .error e
  | .ok labels =>
  match validators.tryGetInt "sample_rate" doc with
  | .error e => .error e
  | .ok sample_rate =>
  match validators.tryGetBool "multichannel" doc with
  | .error e => .error e
  | .ok multichannel =>
      .ok { c with author, name, model_size, long_description, short_description,
                   effect_type, domain_tags, tags, labels, sample_rate, multichannel }

end ModelCard

/-- The membership structure of a document that makes `Deserialize`
succeed: a JSON object whose required fields are present and well-typed
(the spec-side characterization used to state what `Deserialize` actually
rejects). -/
def hasRequiredFields (doc : JsonValue) : Bool :=
  doc.isObject &&
  ((doc.getMember "effect_type").getD .null).isString &&
  ((doc.getMember "domain_tags").getD .null).isArray &&
  ((doc.getMember "tags").getD .null).isArray &&
  ((doc.getMember "labels").getD .null).isArray &&
  ((doc.getMember "sample_rate").getD .null).isInt &&
  ((doc.getMember "multichannel").getD .null).isBool

/-- `ModelCardCollection` (ModelCard.h): an ordered vector of cards.  The
C++ stores `shared_ptr`s; sharing is immaterial to the registry logic, so
cards are stored by value. -/
abbrev ModelCardCollection := List ModelCard

namespace ModelCardCollection

/-- `ModelCardCollection::Insert` (ModelCard.cpp): linear `find_if` for an
existing card equal (by repo id) to the new one; append only if absent. -/
def Insert (coll : ModelCardCollection) (card : ModelCard) : ModelCardCollection :=
  if coll.any (fun a => ModelCard.cardEq card a) then coll else coll ++ [card]

/-- `ModelCardCollection::Filter` (ModelCard.cpp): `copy_if`, preserving
relative order. -/
def Filter (coll : ModelCardCollection) (f : ModelCard → Bool) : ModelCardCollection :=
  coll.filter f

end ModelCardCollection

/-- Fold a sequence of `Insert` calls over a collection. -/
def insertAll (coll : ModelCardCollection) (cards : List ModelCard) : ModelCardCollection :=
  cards.foldl ModelCardCollection.Insert coll

/-!  DeepModelManager (DeepModelManager.cpp).  The filesystem is the list
of existing file paths; `mResponseMap` is modelled by its key list (keys
are unique, as in `std::map`).  `wxFileName(dir, name).GetFullPath()` is
path concatenation with `/`. -/

/-- The observable manager state: the in-flight response map's keys, the
filesystem, and the in-memory card registry. -/
structure MgrState where
  responseMap : List String
  files : List String
  cards : ModelCardCollection

/-- File existence test on the modelled filesystem. -/
def fileExists (path : String) (fs : List String) : Bool :=
  decide (path ∈ fs)

/-- Creating (or truncating) a file: the path becomes existing. -/
def writeFile (path : String) (fs : List String) : List String :=
  if path ∈ fs then fs else fs ++ [path]

/-- `wxRemoveFile`: the path no longer exists (no-op when absent). -/
def removeFile (path : String) (fs : List String) : List String :=
  fs.filter (fun p => decide (p ≠ path))

/-- `std::map` key insertion (`mResponseMap[repoId] = response`). -/
def insertKey (key : String) (keys : List String) : List String :=
  if key ∈ keys then keys else keys ++ [key]

/-- `std::map::erase` by key. -/
def removeKey (key : String) (keys : List String) : List String :=
  keys.filter (fun k => decide (k ≠ key))

namespace DeepModelManager

/-- `DeepModelManager::GetRepoDir`: `{models_dir}/{author}_{name}` (the
separator between author and name is an underscore; `FileNames::MkDir`'s
directory creation is a side effect the file list does not track). -/
def GetRepoDir (root : String) (card : ModelCard) : String :=
  root ++ "/" ++ card.author ++ "_" ++ card.name

/-- `DeepModelManager::GetRootURL`. -/
def GetRootURL (repoID : String) : String :=
  "https://huggingface.co/" ++ repoID ++ "/resolve/main/"

/-- `DeepModelManager::IsInstalled`: both `model.pt` and `metadata.json`
must exist under the card's `local_path`.  Only `wxFileName` path
assembly and existence checks occur, so the operation cannot throw. -/
def IsInstalled (card : ModelCard) (fs : List String) : Bool :=
  fileExists (card.local_path ++ "/" ++ "model.pt") fs &&
  fileExists (card.local_path ++ "/" ++ "metadata.json") fs

/-- `DeepModelManager::IsInstalling`: membership in the response map. -/
def IsInstalling (card : ModelCard) (s : MgrState) : Bool :=
  decide (card.GetRepoID ∈ s.responseMap)

/-- `DeepModelManager::Uninstall`: best-effort removal of the two cache
files under `GetRepoDir` (plus the directory, which the file list does
not track). -/
def Uninstall (root : String) (card : ModelCard) (fs : List String) : List String :=
  removeFile (GetRepoDir root card ++ "/" ++ "metadata.json")
    (removeFile (GetRepoDir root card ++ "/" ++ "model.pt") fs)

/-- `DeepModelManager::CancelInstall`: asserts (and returns) when the card
is not installing; otherwise aborts the transfer and erases the map
entry. -/
def CancelInstall (card : ModelCard) (s : MgrState) : MgrState :=
  if ¬ IsInstalling card s then s
  else { s with responseMap := removeKey card.GetRepoID s.responseMap }

/-- The observable side effects of an `Install` call. -/
inductive MgrEffect where
  | writeMetadata (path : String) : MgrEffect
  | netGet (url : String) : MgrEffect
  | openWrite (path : String) : MgrEffect

/-- `DeepModelManager::Install` up to the registration of the response:
already-installed cards return immediately; otherwise the metadata file
is serialized to the repo dir, `DownloadModel` issues the GET and opens
the weights file for writing, and the response is recorded in the map.
The progress/completion handlers it registers are modelled separately by
`progressHandlerFires` and `installHandler`. -/
def Install (root : String) (card : ModelCard) (s : MgrState) :
    MgrState × List MgrEffect :=
  if IsInstalled card s.files then (s, [])
  else
    let metaPath := GetRepoDir root card ++ "/" ++ "metadata.json"
    let url := GetRootURL card.GetRepoID ++ "model.pt"
    let weightsPath := GetRepoDir root card ++ "/" ++ "model.pt"
    ({ s with
        responseMap := insertKey card.GetRepoID s.responseMap,
        files := writeFile weightsPath (writeFile metaPath s.files) },
     [.writeMetadata metaPath, .netGet url, .openWrite weightsPath])

/-- The guard of the `progressHandler` lambda in `Install`: the caller's
`onProgress` runs only when the card is still in the response map. -/
def progressHandlerFires (card : ModelCard) (s : MgrState) : Bool :=
  IsInstalling card s

/-- The `installHandler` lambda in `Install` (completion handler): when
the install was cancelled, uninstall and bail without invoking the
caller's handler; otherwise run the source's cleanup guard
`!(httpCode == 200) || !(httpCode == 302) || !(body.size() > 0)`
verbatim, invoke the caller's `onCompleted`, and erase the map entry.
Returns the new state and whether the caller's handler was invoked. -/
def installHandler (root : String) (card : ModelCard) (httpCode : Int)
    (body : String) (s : MgrState) : MgrState × Bool :=
  if ¬ IsInstalling card s then
    ({ s with files := Uninstall root card s.files }, false)
  else
    let files :=
      if ¬ (httpCode = 200) ∨ ¬ (httpCode = 302) ∨ ¬ (body.length > 0)
      then Uninstall root card s.files
      else s.files
    ({ s with files := files,
              responseMap := removeKey card.GetRepoID s.responseMap },
     true)

/-- Observable side effects of `DownloadModel`'s data-received callback. -/
inductive DlEffect where
  | writeWeights (bytes : String) : DlEffect
  | loadModel (bytes : String) : DlEffect
  | uninstallFiles : DlEffect

/-- Does a download effect invoke the native model loader? -/
def isLoadEffect : DlEffect → Bool
  | .loadModel _ => true
  | _ => false

/-- The `setOnDataReceivedCallback` lambda in
`DeepModelManager::DownloadModel`: bail (and uninstall) when the install
was cancelled; when the HTTP code is 200 or 302, append the received
bytes directly to the weights file. -/
def onDataReceived (root : String) (card : ModelCard) (httpCode : Int)
    (data : String) (s : MgrState) : MgrState × List DlEffect :=
  if ¬ IsInstalling card s then
    ({ s with files := Uninstall root card s.files }, [.uninstallFiles])
  else if httpCode = 200 ∨ httpCode = 302 then
    ({ s with
        files := writeFile (GetRepoDir root card ++ "/" ++ "model.pt") s.files },
     [.writeWeights data])
  else (s, [])

end DeepModelManager

/-!  Event-level semantics for the install lifecycle: transport events for
a transfer are routed through the guarded handler lambdas registered by
`Install`, and manager calls may interleave. -/

/-- One event observable by the manager after some installs are in
flight. -/
inductive Event where
  | progress (card : ModelCard) (current expected : Int) : Event
  | completion (card : ModelCard) (httpCode : Int) (body : String) : Event
  | installReq (card : ModelCard) : Event
  | cancelReq (card : ModelCard) : Event

/-- An invocation of a caller-supplied callback from the original
`Install(card, onProgress, onCompleted)` call, tagged by repo id. -/
inductive Invocation where
  | onProgress (repo : String) (current expected : Int) : Invocation
  | onCompleted (repo : String) (httpCode : Int) (body : String) : Invocation

/-- The repo id a callback invocation belongs to. -/
def Invocation.repo : Invocation → String
  | .onProgress r _ _ => r
  | .onCompleted r _ _ => r

/-- One step of the manager: route the event through the corresponding
source code path and collect the caller-callback invocations it makes. -/
def step (root : String) (s : MgrState) : Event → MgrState × List Invocation
  | .progress card current expected =>
      if DeepModelManager.progressHandlerFires card s then
        (s, [.onProgress card.GetRepoID current expected])
      else (s, [])
  | .completion card httpCode body =>
      let r := DeepModelManager.installHandler root card httpCode body s
      (r.1, if r.2 then [.onCompleted card.GetRepoID httpCode body] else [])
  | .installReq card => ((DeepModelManager.Install root card s).1, [])
  | .cancelReq card => (DeepModelManager.CancelInstall card s, [])

/-- A torch tensor: shape and flattened contents. -/
structure Tensor where
  shape : List Nat
  data : List Rat

/-- `torch::zeros_like(input)`: same shape, same element count, all
zeros. -/
def zerosLike (t : Tensor) : Tensor :=
  { shape := t.shape, data := t.data.map (fun _ => 0) }

/-- `EffectDeepLearning::ForwardPass`: runs the engine's forward pass and
catches any `std::exception`, logging it, showing a message box, and
substituting `torch::zeros_like(input)`. -/
def ForwardPass (forward : Tensor → Except String Tensor) (input : Tensor) : Tensor :=
  match forward input with
  | .ok output => output
  | .error _ => zerosLike input

/-- Did an embedded throwing operation complete without an exception? -/
def Except.succeeded {ε α : Type _} : Except ε α → Bool
  | .ok _ => true
  | .error _ => false

/-!  Concrete fixtures used by witnesses and counterexamples. -/

/-- A schema that accepts every document. -/
def acceptAllSchema : Schema := fun _ => true

/-- A schema that rejects every document. -/
def rejectAllSchema : Schema := fun _ => false

/-- A default-initialized card. -/
def emptyCard : ModelCard := {}

/-- The card for repo `alice/sep1` as the manager builds it
(`local_path` set to `GetRepoDir` with models root `"models"`). -/
def exCard : ModelCard :=
  { name := "sep1", author := "alice", local_path := "models/alice_sep1" }

/-- A second, different card under the same repo id as `exCard`. -/
def exCard2 : ModelCard :=
  { name := "sep1", author := "alice", tags := ["v2"] }

/-- A fully populated card. -/
def exFullCard : ModelCard :=
  { name := "sep1", author := "alice",
    long_description := "a long description", short_description := "a short one",
    sample_rate := 44100, multichannel := true,
    effect_type := "source-separation",
    domain_tags := ["music"], tags := ["demo"], labels := ["vocals", "drums"],
    model_size := 1024, is_local := false, local_path := "models/alice_sep1" }

/-- A JSON object carrying every required field, well-typed. -/
def exDoc : JsonValue :=
  .obj [("effect_type", .str "source-separation"),
        ("sample_rate", .num 44100),
        ("multichannel", .bool false),
        ("domain_tags", .arr [.str "music"]),
        ("tags", .arr []),
        ("labels", .arr [.str "vocals", .str "drums"])]

/-- Manager state with `exCard`'s install in flight and both cache files
already on disk. -/
def exInstalling : MgrState :=
  { responseMap := ["alice/sep1"],
    files := ["models/alice_sep1/model.pt", "models/alice_sep1/metadata.json"],
    cards := [] }

/-- The cache files at the layout the spec describes
(`{cache_root}/{author}/{name}/model.bin` with metadata beside it). -/
def exSpecLayoutFiles : List String :=
  ["models/alice/sep1/model.bin", "models/alice/sep1/metadata.json"]

/-- C9: if the engine's forward pass throws, the effect-layer wrapper
returns a tensor of the input's shape (and element count) that is
entirely zero-valued; `ForwardPass` is a total function into `Tensor`, so
no exception reaches the audio-processing pipeline. -/
theorem forwardPass_failsafe (forward : Tensor → Except String Tensor)
    (input : Tensor) (msg : String) (h : forward input = .error msg) :
    ForwardPass forward input = zerosLike input ∧
    (ForwardPass forward input).shape = input.shape ∧
    (ForwardPass forward input).data.length = input.data.length ∧
    ∀ x ∈ (ForwardPass forward input).data, x = 0 := by
  have hz : ForwardPass forward input = zerosLike input := by
    unfold ForwardPass
    rw [h]
  refine ⟨hz, ?_, ?_, ?_⟩
  · rw [hz]; rfl
  · rw [hz]; simp [zerosLike]
  · rw [hz]
    intro x hx
    simp [zerosLike] at hx
    exact hx.2

/-- Witness for `forwardPass_failsafe` at a throwing engine and the
concrete input tensor of shape `[1, 3]` with data `[1, 2, 3]`. -/
theorem forwardPass_failsafe_witness :
    ForwardPass (fun _ => .error "engine failure") ⟨[1, 3], [1, 2, 3]⟩ =
      zerosLike ⟨[1, 3], [1, 2, 3]⟩ ∧
    (ForwardPass (fun _ => .error "engine failure") ⟨[1, 3], [1, 2, 3]⟩).shape = [1, 3] ∧
    ∀ x ∈ (ForwardPass (fun _ => .error "engine failure") ⟨[1, 3], [1, 2, 3]⟩).data, x = 0 := by
  have h := forwardPass_failsafe (fun _ => .error "engine failure")
    ⟨[1, 3], [1, 2, 3]⟩ "engine failure" rfl
  exact ⟨h.1, h.2.1, h.2.2.2⟩

/-- C8: `Install` on an already-installed card returns before doing
anything: no metadata write, no network request, no weights-file open, no
response-map entry, the state (in-flight map, registry, files) unchanged,
and the event-level step emits no callback invocation. -/
theorem install_on_installed_noop (root : String) (card : ModelCard) (s : MgrState)
    (h : DeepModelManager.IsInstalled card s.files = true) :
    DeepModelManager.Install root card s = (s, []) ∧
    step root s (.installReq card) = (s, []) := by
  have h1 : DeepModelManager.Install root card s = (s, []) := by
    unfold DeepModelManager.Install
    rw [h]
    simp
  have h2 : step root s (.installReq card) =
      ((DeepModelManager.Install root card s).1, []) := rfl
  rw [h1] at h2
  exact ⟨h1, h2⟩

/-- Witness for `install_on_installed_noop`: `exCard` with both cache
files present. -/
theorem install_on_installed_noop_witness :
    DeepModelManager.Install "models" exCard exInstalling = (exInstalling, []) ∧
    step "models" exInstalling (.installReq exCard) = (exInstalling, []) :=
  install_on_installed_noop "models" exCard exInstalling rfl

/-- C1: evaluation of the completion handler at a successful, uncancelled
download (HTTP 200, non-empty body, repo still in the in-flight map, both
cache files on disk).  The source's cleanup guard
`!(httpCode == 200) || !(httpCode == 302) || !(body.size() > 0)` is a
tautology — no integer equals both 200 and 302 — so `Uninstall` runs and
deletes the metadata and weights files even on this successful
completion, contradicting the claim that they are kept. -/
theorem installHandler_uninstalls_successful_download :
    DeepModelManager.IsInstalled exCard exInstalling.files = true ∧
    (DeepModelManager.installHandler "models" exCard 200 "weights" exInstalling).2 = true ∧
    fileExists "models/alice_sep1/model.pt"
      (DeepModelManager.installHandler "models" exCard 200 "weights" exInstalling).1.files = false ∧
    fileExists "models/alice_sep1/metadata.json"
      (DeepModelManager.installHandler "models" exCard 200 "weights" exInstalling).1.files = false ∧
    DeepModelManager.IsInstalled exCard
      (DeepModelManager.installHandler "models" exCard 200 "weights" exInstalling).1.files = false :=
  ⟨rfl, rfl, rfl, rfl, rfl⟩

/-- C3 counterexample: the data-received callback of `DownloadModel`, on a
still-in-flight transfer with HTTP 200 delivering (corrupt) bytes, writes
the bytes straight to the weights file and never invokes the native model
loader — refuting the claim that the bytes are deserialized through the
loader before being re-saved. -/
theorem download_writes_bytes_without_loading :
    (DeepModelManager.onDataReceived "models" exCard 200 "corrupt-bytes" exInstalling).2 =
      [DeepModelManager.DlEffect.writeWeights "corrupt-bytes"] ∧
    ((DeepModelManager.onDataReceived "models" exCard 200 "corrupt-bytes" exInstalling).2.any
      DeepModelManager.isLoadEffect) = false :=
  ⟨rfl, rfl⟩

/-- C3 (amended): during download, the received bytes are appended
directly to the weights file whenever the transfer is still in flight and
the HTTP code is 200 or 302; the native model loader is never invoked by
the data-received callback, so a corrupt download is not detected at
install time. -/
theorem download_streams_bytes_no_loader (root : String) (card : ModelCard)
    (httpCode : Int) (data : String) (s : MgrState) :
    ((DeepModelManager.onDataReceived root card httpCode data s).2.any
      DeepModelManager.isLoadEffect) = false ∧
    (DeepModelManager.DlEffect.writeWeights data
        ∈ (DeepModelManager.onDataReceived root card httpCode data s).2 ↔
      DeepModelManager.IsInstalling card s = true ∧ (httpCode = 200 ∨ httpCode = 302)) := by
  unfold DeepModelManager.onDataReceived
  by_cases hin : DeepModelManager.IsInstalling card s = true
  · rw [if_neg (not_not_intro hin)]
    by_cases hcode : httpCode = 200 ∨ httpCode = 302
    · rw [if_pos hcode]
      exact ⟨rfl, ⟨fun _ => ⟨hin, hcode⟩, fun _ => List.mem_singleton.mpr rfl⟩⟩
    · rw [if_neg hcode]
      exact ⟨rfl, ⟨fun hmem => absurd hmem (List.not_mem_nil _),
                   fun hc => absurd hc.2 hcode⟩⟩
  · rw [if_pos hin]
    exact ⟨rfl, ⟨fun hmem =>
        DeepModelManager.DlEffect.noConfusion (List.mem_singleton.mp hmem),
      fun hc => absurd hc.1 hin⟩⟩

/-- C4 counterexample: with both files present at the layout the claim
names — `{cache_root}/{author}/{name}/model.bin` and the metadata beside
it — `IsInstalled` still answers `false` for the manager-built card: the
code keys the check to `local_path` (which the manager sets to
`{models_dir}/{author}_{name}`, underscore-joined) and to the file name
`model.pt`, not `model.bin`. -/
theorem isInstalled_false_at_spec_layout :
    fileExists "models/alice/sep1/model.bin" exSpecLayoutFiles = true ∧
    fileExists "models/alice/sep1/metadata.json" exSpecLayoutFiles = true ∧
    DeepModelManager.IsInstalled exCard exSpecLayoutFiles = false :=
  ⟨rfl, rfl, rfl⟩

/-- Helper: a removed file no longer exists. -/
theorem fileExists_removeFile_self (p : String) (fs : List String) :
    fileExists p (removeFile p fs) = false := by
  unfold fileExists removeFile
  rw [decide_eq_false_iff_not]
  intro hmem
  exact (of_decide_eq_true (List.mem_filter.mp hmem).2) rfl

/-- C4 (amended): `IsInstalled(c)` is true iff both `model.pt` and
`metadata.json` exist in the directory recorded in `c.local_path` — for a
manager-built card, `{models_dir}/{author}_{name}` — and removing either
file flips the result to false.  `IsInstalled` is a total function of the
card and filesystem (the source performs only no-throw existence
checks). -/
theorem isInstalled_iff_both_files (root : String) (c : ModelCard) (fs : List String)
    (h : c.local_path = DeepModelManager.GetRepoDir root c) :
    (DeepModelManager.IsInstalled c fs = true ↔
      (root ++ "/" ++ c.author ++ "_" ++ c.name ++ "/" ++ "model.pt") ∈ fs ∧
      (root ++ "/" ++ c.author ++ "_" ++ c.name ++ "/" ++ "metadata.json") ∈ fs) ∧
    DeepModelManager.IsInstalled c
      (removeFile (c.local_path ++ "/" ++ "model.pt") fs) = false ∧
    DeepModelManager.IsInstalled c
      (removeFile (c.local_path ++ "/" ++ "metadata.json") fs) = false := by
  refine ⟨?_, ?_, ?_⟩
  · unfold DeepModelManager.IsInstalled fileExists
    rw [h, Bool.and_eq_true, decide_eq_true_eq, decide_eq_true_eq]
    exact Iff.rfl
  · unfold DeepModelManager.IsInstalled
    rw [fileExists_removeFile_self, Bool.false_and]
  · unfold DeepModelManager.IsInstalled
    rw [fileExists_removeFile_self, Bool.and_false]

/-- Witness for `isInstalled_iff_both_files` at `exCard` and the
filesystem of `exInstalling`. -/
theorem isInstalled_iff_both_files_witness :
    (DeepModelManager.IsInstalled exCard exInstalling.files = true ↔
      ("models" ++ "/" ++ "alice" ++ "_" ++ "sep1" ++ "/" ++ "model.pt") ∈ exInstalling.files ∧
      ("models" ++ "/" ++ "alice" ++ "_" ++ "sep1" ++ "/" ++ "metadata.json") ∈ exInstalling.files) ∧
    DeepModelManager.IsInstalled exCard
      (removeFile ("models/alice_sep1" ++ "/" ++ "model.pt") exInstalling.files) = false ∧
    DeepModelManager.IsInstalled exCard
      (removeFile ("models/alice_sep1" ++ "/" ++ "metadata.json") exInstalling.files) = false :=
  isInstalled_iff_both_files "models" exCard exInstalling.files rfl

/-- Helper: generic first-writer-wins analysis of a fold of guarded
appends.  `dup a` is the duplicate check used when inserting `a`; `p` is
the filter predicate; `hcompat` says the duplicate check of a `p`-card
agrees with `p`. -/
theorem foldl_insert_filter {α : Type} (dup : α → α → Bool) (p : α → Bool)
    (hcompat : ∀ a, p a = true → ∀ b, dup a b = p b)
    (cards : List α) (coll : List α) :
    (cards.foldl (fun l a => if l.any (dup a) then l else l ++ [a]) coll).filter p =
      coll.filter p ++
      (if coll.any p then [] else (cards.filter p).take 1) := by
  induction cards generalizing coll with
  | nil =>
      show coll.filter p = coll.filter p ++ (if coll.any p = true then [] else [])
      rw [ite_self, List.append_nil]
  | cons card cs ih =>
      show ((cs.foldl _ (if coll.any (dup card) then coll else coll ++ [card])).filter p) = _
      rw [ih]
      by_cases hd : coll.any (dup card) = true
      · rw [if_pos hd]
        by_cases hp : coll.any p = true
        · rw [if_pos hp, if_pos hp]
        · have hpc : p card = false := by
            cases hq : p card with
            | false => rfl
            | true =>
                have h1 : coll.any (dup card) = coll.any p :=
                  congrArg coll.any (funext (hcompat card hq))
                rw [h1] at hd
                exact absurd hd hp
          have hnpc : ¬ (p card = true) := fun h => by
            rw [hpc] at h; exact Bool.noConfusion h
          rw [if_neg hp, if_neg hp, List.filter_cons, if_neg hnpc]
      · rw [if_neg hd, List.filter_append, List.filter_cons, List.filter_nil,
          List.any_append, List.any_cons, List.any_nil]
        by_cases hpc : p card = true
        · have hanyp : coll.any p = false := by
            have h1 : coll.any (dup card) = coll.any p :=
              congrArg coll.any (funext (hcompat card hpc))
            rw [h1] at hd
            simpa using hd
          have hnp : ¬ (coll.any p = true) := fun h => by
            rw [hanyp] at h; exact Bool.noConfusion h
          rw [if_pos hpc, hpc, Bool.or_false, Bool.or_true, if_pos rfl,
            List.append_nil, if_neg hnp, List.filter_cons, if_pos hpc,
            List.take_succ_cons, List.take_zero]
        · have hpcf : p card = false := by simpa using hpc
          rw [if_neg hpc, hpcf, Bool.or_false, Bool.or_false, List.append_nil]
          by_cases hp : coll.any p = true
          · rw [if_pos hp, if_pos hp]
          · rw [if_neg hp, if_neg hp, List.filter_cons, if_neg hpc]

/-- Helper: folding a sequence of `Insert` calls, the cards of repo id `r`
in the result are those already present, followed — only if none was
present — by the first card of that repo id in the sequence. -/
theorem insertAll_filter_repo (cards : List ModelCard) (coll : ModelCardCollection)
    (r : String) :
    (insertAll coll cards).filter (fun c => decide (c.GetRepoID = r)) =
      coll.filter (fun c => decide (c.GetRepoID = r)) ++
      (if coll.any (fun c => decide (c.GetRepoID = r)) then []
       else (cards.filter (fun c => decide (c.GetRepoID = r))).take 1) :=
  foldl_insert_filter (fun card a => ModelCard.cardEq card a)
    (fun c => decide (c.GetRepoID = r))
    (fun a ha b => by
      show decide (a.GetRepoID = b.GetRepoID) = decide (b.GetRepoID = r)
      rw [of_decide_eq_true ha]
      exact decide_eq_decide.mpr ⟨Eq.symm, Eq.symm⟩)
    cards coll

/-- C6: for every sequence of `Insert` calls into a fresh registry, the
cards with a given repo id in the result are exactly the first card of
that repo id in the sequence (so at most one card per distinct repo id
survives, namely the first inserted), and inserting a card whose repo id
is already present is a silent no-op leaving the collection unchanged
(`Insert` is a total function, so it cannot fail). -/
theorem registry_first_writer_wins (cards : List ModelCard) (r : String) :
    (insertAll [] cards).filter (fun c => decide (c.GetRepoID = r)) =
      (cards.filter (fun c => decide (c.GetRepoID = r))).take 1 ∧
    ((insertAll [] cards).filter (fun c => decide (c.GetRepoID = r))).length ≤ 1 ∧
    ∀ (coll : ModelCardCollection) (card : ModelCard),
      (∃ a ∈ coll, a.GetRepoID = card.GetRepoID) →
      ModelCardCollection.Insert coll card = coll := by
  have hfilter : (insertAll [] cards).filter (fun c => decide (c.GetRepoID = r)) =
      (cards.filter (fun c => decide (c.GetRepoID = r))).take 1 := by
    have h := insertAll_filter_repo cards [] r
    simpa using h
  refine ⟨hfilter, ?_, ?_⟩
  · rw [hfilter, List.length_take]
    exact min_le_left _ _
  · intro coll card hmem
    unfold ModelCardCollection.Insert
    rw [if_pos]
    rw [List.any_eq_true]
    obtain ⟨a, ha, hra⟩ := hmem
    exact ⟨a, ha, by simp [ModelCard.cardEq, hra]⟩

/-- Witness for `registry_first_writer_wins`: inserting `exCard` and then
`exCard2` (same repo id `alice/sep1`, different tags) retains only
`exCard`, and the duplicate insert is a no-op. -/
theorem registry_first_writer_wins_witness :
    (insertAll [] [exCard, exCard2]).filter
      (fun c => decide (c.GetRepoID = "alice/sep1")) = [exCard] ∧
    ModelCardCollection.Insert [exCard] exCard2 = [exCard] := by
  constructor
  · have h := (registry_first_writer_wins [exCard, exCard2] "alice/sep1").1
    rw [h]
    rfl
  · exact (registry_first_writer_wins [] "alice/sep1").2.2 [exCard] exCard2
      ⟨exCard, List.mem_singleton.mpr rfl, by decide⟩

/-- Helper: every later insert whose repo id matches the sole resident
card is dropped. -/
theorem insertAll_dup_noop (c1 : ModelCard) (cs : List ModelCard)
    (h : ∀ c ∈ cs, c.GetRepoID = c1.GetRepoID) :
    insertAll [c1] cs = [c1] := by
  induction cs with
  | nil => rfl
  | cons c cs' ih =>
      have hstep : insertAll [c1] (c :: cs') =
          insertAll (ModelCardCollection.Insert [c1] c) cs' := rfl
      have hcond : ([c1].any (fun a => ModelCard.cardEq c a)) = true := by
        simp [ModelCard.cardEq]
        exact h c (by simp)
      have hins : ModelCardCollection.Insert [c1] c = [c1] := by
        unfold ModelCardCollection.Insert
        rw [if_pos hcond]
      rw [hstep, hins]
      exact ih (fun c' hc' => h c' (by simp [hc']))

/-- C10: any two cards whose author and name both hold the empty-string
default (what `Deserialize` produces when hub metadata omits those keys)
share the repo id `"/"`, compare equal whatever their other fields, and
the registry keeps only the first such card, dropping every later one. -/
theorem empty_author_name_cards_collapse (c1 c2 : ModelCard)
    (h1 : c1.author = "") (h2 : c1.name = "")
    (h3 : c2.author = "") (h4 : c2.name = "") :
    c1.GetRepoID = "/" ∧ c2.GetRepoID = "/" ∧
    ModelCard.cardEq c1 c2 = true ∧
    ∀ cs : List ModelCard, (∀ c ∈ cs, c.author = "" ∧ c.name = "") →
      insertAll [] (c1 :: cs) = [c1] := by
  have hid1 : c1.GetRepoID = "/" := by
    unfold ModelCard.GetRepoID
    rw [h1, h2]
    decide
  have hid2 : c2.GetRepoID = "/" := by
    unfold ModelCard.GetRepoID
    rw [h3, h4]
    decide
  refine ⟨hid1, hid2, ?_, ?_⟩
  · simp [ModelCard.cardEq, hid1, hid2]
  · intro cs hcs
    have hstep : insertAll [] (c1 :: cs) =
        insertAll (ModelCardCollection.Insert [] c1) cs := rfl
    have hins : ModelCardCollection.Insert [] c1 = [c1] := rfl
    rw [hstep, hins]
    apply insertAll_dup_noop
    intro c hc
    have hcc := hcs c hc
    rw [hid1]
    unfold ModelCard.GetRepoID
    rw [hcc.1, hcc.2]
    decide

/-- Witness for `empty_author_name_cards_collapse`: two default-identity
cards differing in `tags`/`labels`. -/
theorem empty_author_name_cards_collapse_witness :
    ModelCard.GetRepoID { tags := ["a"] } = "/" ∧
    ModelCard.cardEq { tags := ["a"] } { labels := ["x"] } = true ∧
    insertAll [] [{ tags := ["a"] }, { labels := ["x"] }] =
      [{ tags := ["a"] }] := by
  have h := empty_author_name_cards_collapse { tags := ["a"] } { labels := ["x"] }
    rfl rfl rfl rfl
  exact ⟨h.1, h.2.2.1, h.2.2.2 [{ labels := ["x"] }] (by simp)⟩

/-- Helper: the type-test `if` of a validator succeeds exactly when the
test passes. -/
theorem succ_ite_test {β : Type} (b : Bool) (er : InvalidModelCardDocument) (val : β) :
    (if ¬ b = true then (.error er : Except InvalidModelCardDocument β)
     else .ok val).succeeded = b := by
  cases b <;> rfl

/-- Helper: `validateExists` succeeds exactly on an object carrying the
member. -/
theorem validateExists_succeeded (key : String) (doc : JsonValue) :
    (validators.validateExists key doc).succeeded =
      (doc.isObject && doc.hasMember key) := by
  cases doc with
  | obj fields =>
      show (if ¬ (JsonValue.hasMember (.obj fields) key = true)
            then (.error (.missingField key) : Except InvalidModelCardDocument Unit)
            else .ok ()).succeeded = (true && JsonValue.hasMember (.obj fields) key)
      cases hmem : JsonValue.hasMember (.obj fields) key <;> rfl
  | null => rfl
  | bool b => rfl
  | num n => rfl
  | str s => rfl
  | arr items => rfl

/-- Helper: shared success analysis for the throwing validators.  Each one
first runs `validateExists` and then applies a type test to the member. -/
theorem validator_succ {β : Type} (key : String) (doc : JsonValue)
    (test : JsonValue → Bool) (r : Except InvalidModelCardDocument β)
    (herr : ∀ er, validators.validateExists key doc = .error er → r = .error er)
    (hok : validators.validateExists key doc = .ok () →
      r.succeeded = test ((doc.getMember key).getD .null))
    (hnull : test .null = false) :
    r.succeeded = (doc.isObject && test ((doc.getMember key).getD .null)) := by
  cases hve : validators.validateExists key doc with
  | ok u =>
      cases u
      rw [hok hve]
      have h2 : (doc.isObject && doc.hasMember key) = true := by
        rw [← validateExists_succeeded, hve]; rfl
      have ho : doc.isObject = true := by
        cases hoo : doc.isObject with
        | true => rfl
        | false => rw [hoo, Bool.false_and] at h2; exact Bool.noConfusion h2
      rw [ho, Bool.true_and]
  | error er =>
      rw [herr er hve]
      have h2 : (doc.isObject && doc.hasMember key) = false := by
        rw [← validateExists_succeeded, hve]; rfl
      unfold JsonValue.hasMember at h2
      show false = (doc.isObject && test ((doc.getMember key).getD .null))
      cases hm : doc.getMember key with
      | none =>
          rw [show ((none : Option JsonValue).getD .null) = .null from rfl,
            hnull, Bool.and_false]
      | some v =>
          rw [hm] at h2
          rw [show (some v).isSome = true from rfl, Bool.and_true] at h2
          rw [h2, Bool.false_and]

/-- Helper: `tryGetString` succeeds exactly on an object with a
string-valued member at the key. -/
theorem tryGetString_succeeded (key : String) (doc : JsonValue) :
    (validators.tryGetString key doc).succeeded =
      (doc.isObject && ((doc.getMember key).getD .null).isString) := by
  have herr : ∀ er, validators.validateExists key doc = .error er →
      validators.tryGetString key doc = .error er := by
    intro er h
    simp only [validators.tryGetString, h]
  have hok : validators.validateExists key doc = .ok () →
      (validators.tryGetString key doc).succeeded =
        ((doc.getMember key).getD .null).isString := by
    intro h
    simp only [validators.tryGetString, h]
    exact succ_ite_test _ _ _
  exact validator_succ key doc JsonValue.isString _ herr hok rfl

/-- Helper: `tryGetStringArray` succeeds exactly on an object with an
array-valued member at the key. -/
theorem tryGetStringArray_succeeded (key : String) (doc : JsonValue) :
    (validators.tryGetStringArray key doc).succeeded =
      (doc.isObject && ((doc.getMember key).getD .null).isArray) := by
  have herr : ∀ er, validators.validateExists key doc = .error er →
      validators.tryGetStringArray key doc = .error er := by
    intro er h
    simp only [validators.tryGetStringArray, h]
  have hok : validators.validateExists key doc = .ok () →
      (validators.tryGetStringArray key doc).succeeded =
        ((doc.getMember key).getD .null).isArray := by
    intro h
    simp only [validators.tryGetStringArray, h]
    cases hv : (doc.getMember key).getD .null <;> rfl
  exact validator_succ key doc JsonValue.isArray _ herr hok rfl

/-- Helper: `tryGetInt` succeeds exactly on an object with an
`int`-ranged numeric member at the key. -/
theorem tryGetInt_succeeded (key : String) (doc : JsonValue) :
    (validators.tryGetInt key doc).succeeded =
      (doc.isObject && ((doc.getMember key).getD .null).isInt) := by
  have herr : ∀ er, validators.validateExists key doc = .error er →
      validators.tryGetInt key doc = .error er := by
    intro er h
    simp only [validators.tryGetInt, h]
  have hok : validators.validateExists key doc = .ok () →
      (validators.tryGetInt key doc).succeeded =
        ((doc.getMember key).getD .null).isInt := by
    intro h
    simp only [validators.tryGetInt, h]
    exact succ_ite_test _ _ _
  exact validator_succ key doc JsonValue.isInt _ herr hok rfl

/-- Helper: `tryGetBool` succeeds exactly on an object with a Boolean
member at the key. -/
theorem tryGetBool_succeeded (key : String) (doc : JsonValue) :
    (validators.tryGetBool key doc).succeeded =
      (doc.isObject && ((doc.getMember key).getD .null).isBool) := by
  have herr : ∀ er, validators.validateExists key doc = .error er →
      validators.tryGetBool key doc = .error er := by
    intro er h
    simp only [validators.tryGetBool, h]
  have hok : validators.validateExists key doc = .ok () →
      (validators.tryGetBool key doc).succeeded =
        ((doc.getMember key).getD .null).isBool := by
    intro h
    simp only [validators.tryGetBool, h]
    exact succ_ite_test _ _ _
  exact validator_succ key doc JsonValue.isBool _ herr hok rfl

/-- Helper: deserialization succeeds exactly when all six required-field
reads succeed; the schema plays no role. -/
theorem deserialize_succeeded_eq (c0 : ModelCard) (doc : JsonValue) (schema : Schema) :
    (ModelCard.Deserialize c0 doc schema).succeeded = hasRequiredFields doc := by
  have hchain : (ModelCard.Deserialize c0 doc schema).succeeded =
      ((validators.tryGetString "effect_type" doc).succeeded &&
       (validators.tryGetStringArray "domain_tags" doc).succeeded &&
       (validators.tryGetStringArray "tags" doc).succeeded &&
       (validators.tryGetStringArray "labels" doc).succeeded &&
       (validators.tryGetInt "sample_rate" doc).succeeded &&
       (validators.tryGetBool "multichannel" doc).succeeded) := by
    unfold ModelCard.Deserialize
    cases h1 : validators.tryGetString "effect_type" doc with
    | error e => rfl
    | ok v1 =>
    cases h2 : validators.tryGetStringArray "domain_tags" doc with
    | error e => rfl
    | ok v2 =>
    cases h3 : validators.tryGetStringArray "tags" doc with
    | error e => rfl
    | ok v3 =>
    cases h4 : validators.tryGetStringArray "labels" doc with
    | error e => rfl
    | ok v4 =>
    cases h5 : validators.tryGetInt "sample_rate" doc with
    | error e => rfl
    | ok v5 =>
    cases h6 : validators.tryGetBool "multichannel" doc with
    | error e => rfl
    | ok v6 => rfl
  rw [hchain, tryGetString_succeeded, tryGetStringArray_succeeded,
    tryGetStringArray_succeeded, tryGetStringArray_succeeded, tryGetInt_succeeded,
    tryGetBool_succeeded]
  unfold hasRequiredFields
  cases hO : doc.isObject <;> rfl

/-- C2 counterexample: `exDoc` is rejected by the schema (here a schema
rejecting everything, so `Validate` throws `schemaViolation`), yet
`Deserialize` still succeeds and admits the card — the source catches the
`Validate` exception and only logs it, so schema-invalid documents are
not rejected at the deserialization boundary. -/
theorem schema_invalid_document_admitted :
    ModelCard.Validate exDoc rejectAllSchema =
      .error InvalidModelCardDocument.schemaViolation ∧
    (ModelCard.Deserialize emptyCard exDoc rejectAllSchema).succeeded = true :=
  ⟨rfl, rfl⟩

/-- C2 (amended): `Deserialize` is entirely independent of the schema
argument, and it throws `InvalidModelCardDocument` exactly when the input
is not a JSON object or one of the required fields (`effect_type`,
`domain_tags`, `tags`, `labels`, `sample_rate`, `multichannel`) is absent
or wrong-typed; schema-validation failure alone is logged and the card is
admitted anyway. -/
theorem deserialize_admits_iff_required_fields (c0 : ModelCard) (doc : JsonValue)
    (schema otherSchema : Schema) :
    ModelCard.Deserialize c0 doc schema = ModelCard.Deserialize c0 doc otherSchema ∧
    (ModelCard.Deserialize c0 doc schema).succeeded = hasRequiredFields doc :=
  ⟨rfl, deserialize_succeeded_eq c0 doc schema⟩

/-- Helper: reading back an array of serialized strings recovers the
original list. -/
theorem map_getStr_map_str (l : List String) :
    (List.map JsonValue.str l).map JsonValue.getStr = l := by
  induction l with
  | nil => rfl
  | cons s l' ih => simp [ih, JsonValue.getStr]

/-- Helper: the caught-default read of `model_size` returns the value
whenever the throwing read succeeds. -/
theorem tryGetUint64D_ok (key : String) (doc : JsonValue) (dflt n : Nat)
    (h : validators.tryGetUint64 key doc = .ok n) :
    validators.tryGetUint64D key doc dflt = n := by
  unfold validators.tryGetUint64D
  rw [h]

/-- Helper: when all six required-field reads succeed, `Deserialize`
returns the card rebuilt from the read values, with the optional fields
taken through their caught-default reads. -/
theorem deserialize_components (c0 : ModelCard) (doc : JsonValue) (schema : Schema)
    (et : String) (dt tg lb : List String) (sr : Int) (mc : Bool)
    (h1 : validators.tryGetString "effect_type" doc = .ok et)
    (h2 : validators.tryGetStringArray "domain_tags" doc = .ok dt)
    (h3 : validators.tryGetStringArray "tags" doc = .ok tg)
    (h4 : validators.tryGetStringArray "labels" doc = .ok lb)
    (h5 : validators.tryGetInt "sample_rate" doc = .ok sr)
    (h6 : validators.tryGetBool "multichannel" doc = .ok mc) :
    ModelCard.Deserialize c0 doc schema = .ok
      { c0 with
        author := validators.tryGetStringD "author" doc "",
        name := validators.tryGetStringD "name" doc "",
        model_size := validators.tryGetUint64D "model_size" doc 0,
        long_description :=
          validators.tryGetStringD "long_description" doc "no long description available",
        short_description :=
          validators.tryGetStringD "short_description" doc "no short description available",
        effect_type := et, domain_tags := dt, tags := tg, labels := lb,
        sample_rate := sr, multichannel := mc } := by
  unfold ModelCard.Deserialize
  rw [h1, h2, h3, h4, h5, h6]

/-- C5: deserializing the serialization of any card (whose `sample_rate`
is in `int` range and `model_size` in `uint64` range, as the C++ member
types guarantee) succeeds whatever the schema and reproduces every
documented field — name, author, both descriptions, effect_type,
sample_rate, multichannel, domain_tags, tags, labels, model_size — so the
result compares equal (same repo id) to the original; only the
unserialized `is_local`/`local_path` members come from the card being
overwritten. -/
theorem serialize_deserialize_roundtrip (c c0 : ModelCard) (schema : Schema)
    (h1 : -2147483648 ≤ c.sample_rate) (h2 : c.sample_rate < 2147483648)
    (h3 : c.model_size < 18446744073709551616) :
    ModelCard.Deserialize c0 (ModelCard.Serialize c) schema =
      .ok { c with is_local := c0.is_local, local_path := c0.local_path } ∧
    ModelCard.cardEq { c with is_local := c0.is_local, local_path := c0.local_path } c
      = true := by
  have hint : JsonValue.isInt (JsonValue.num c.sample_rate) = true := by
    unfold JsonValue.isInt
    simp
    exact ⟨h1, h2⟩
  have hsr : validators.tryGetInt "sample_rate" (ModelCard.Serialize c) =
      .ok c.sample_rate := by
    have hstep : validators.tryGetInt "sample_rate" (ModelCard.Serialize c) =
        if ¬ (JsonValue.isInt (JsonValue.num c.sample_rate) = true)
        then .error (.typeError "sample_rate" "int") else .ok c.sample_rate := rfl
    rw [hstep, hint]
    simp
  have huint : JsonValue.isUint64 (JsonValue.num (Int.ofNat c.model_size)) = true := by
    unfold JsonValue.isUint64
    simp
    exact_mod_cast h3
  have hms : validators.tryGetUint64 "model_size" (ModelCard.Serialize c) =
      .ok c.model_size := by
    have hstep : validators.tryGetUint64 "model_size" (ModelCard.Serialize c) =
        if ¬ (JsonValue.isUint64 (JsonValue.num (Int.ofNat c.model_size)) = true)
        then .error (.typeError "model_size" "uint64")
        else .ok (Int.ofNat c.model_size).toNat := rfl
    rw [hstep, huint]
    simp
  have hauth : validators.tryGetStringD "author" (ModelCard.Serialize c) "" =
      c.author := rfl
  have hname : validators.tryGetStringD "name" (ModelCard.Serialize c) "" =
      c.name := rfl
  have hld : validators.tryGetStringD "long_description" (ModelCard.Serialize c)
      "no long description available" = c.long_description := rfl
  have hsd : validators.tryGetStringD "short_description" (ModelCard.Serialize c)
      "no short description available" = c.short_description := rfl
  have het : validators.tryGetString "effect_type" (ModelCard.Serialize c) =
      .ok c.effect_type := rfl
  have hdt : validators.tryGetStringArray "domain_tags" (ModelCard.Serialize c) =
      .ok c.domain_tags := by
    have hstep : validators.tryGetStringArray "domain_tags" (ModelCard.Serialize c) =
        .ok ((c.domain_tags.map JsonValue.str).map JsonValue.getStr) := rfl
    rw [hstep, map_getStr_map_str]
  have htg : validators.tryGetStringArray "tags" (ModelCard.Serialize c) =
      .ok c.tags := by
    have hstep : validators.tryGetStringArray "tags" (ModelCard.Serialize c) =
        .ok ((c.tags.map JsonValue.str).map JsonValue.getStr) := rfl
    rw [hstep, map_getStr_map_str]
  have hlb : validators.tryGetStringArray "labels" (ModelCard.Serialize c) =
      .ok c.labels := by
    have hstep : validators.tryGetStringArray "labels" (ModelCard.Serialize c) =
        .ok ((c.labels.map JsonValue.str).map JsonValue.getStr) := rfl
    rw [hstep, map_getStr_map_str]
  have hmc : validators.tryGetBool "multichannel" (ModelCard.Serialize c) =
      .ok c.multichannel := rfl
  have base := deserialize_components c0 (ModelCard.Serialize c) schema
    c.effect_type c.domain_tags c.tags c.labels c.sample_rate c.multichannel
    het hdt htg hlb hsr hmc
  rw [hauth, hname, tryGetUint64D_ok "model_size" (ModelCard.Serialize c) 0
    c.model_size hms, hld, hsd] at base
  exact ⟨base, by simp [ModelCard.cardEq, ModelCard.GetRepoID]⟩

/-- Witness for `serialize_deserialize_roundtrip` at the fully populated
`exFullCard`. -/
theorem serialize_deserialize_roundtrip_witness :
    ModelCard.Deserialize emptyCard (ModelCard.Serialize exFullCard) acceptAllSchema =
      .ok { exFullCard with is_local := false, local_path := "" } ∧
    ModelCard.cardEq { exFullCard with is_local := false, local_path := "" } exFullCard
      = true := by
  have h := serialize_deserialize_roundtrip exFullCard emptyCard acceptAllSchema
    (by decide) (by decide) (by decide)
  exact h
